import Mathlib

/-!
Shallow embedding of the GROQ query engine of `crates/groq`
(lexer.rs, ast.rs, parser.rs, eval.rs, functions.rs), together with
theorems settling the frozen claims about it.

Conventions of the embedding:
* Rust `i64`/`usize` become `Int`/`Nat`; where the source can overflow an
  `i64` during `str::parse`, the parse is modelled as returning `none`.
* Rust `f64` is carried as Lean `Float`.  No claim observes float
  arithmetic; floats only travel through data structures.
* Fallible Rust code returns `Except`; a Rust *panic* (an `unwrap` of a
  failed parse) and nontermination are modelled by an outer `Option`
  being `none`.
* `serde_json::Value` becomes the nested inductive `Value`; its `Map` is
  an association list looked up front-to-back (a `serde_json` map has no
  duplicate keys, so this agrees with map lookup).
-/

namespace Groq

/-! ## Data model: serde_json values -/

/-- `serde_json::Value`: a JSON document value (numbers restricted to the
integers the engine actually constructs: `i64` literals and `usize` lengths). -/
inductive Value where
  | null
  | bool (b : Bool)
  | num (n : Int)
  | str (s : String)
  | arr (elems : List Value)
  | obj (fields : List (String × Value))

/-- `Map::get` on an object's field list: first binding of the key. -/
def lookupField : List (String × Value) → String → Option Value
  | [], _ => none
  | (k, v) :: rest, key => if k = key then some v else lookupField rest key

/-- `Value::get(name)`: field of an object, `None` on any other value. -/
def vget (v : Value) (key : String) : Option Value :=
  match v with
  | .obj fields => lookupField fields key
  | _ => none

mutual
/-- `PartialEq` on `serde_json::Value`: deep structural equality
(arrays elementwise in order; objects field-by-field — `serde_json`
maps are canonically ordered, so list equality of their bindings is
map equality). -/
def vbeq : Value → Value → Bool
  | .null, .null => true
  | .bool a, .bool b => a == b
  | .num a, .num b => a == b
  | .str a, .str b => a == b
  | .arr xs, .arr ys => vbeqList xs ys
  | .obj xs, .obj ys => vbeqFields xs ys
  | _, _ => false

/-- Elementwise equality of array contents. -/
def vbeqList : List Value → List Value → Bool
  | [], [] => true
  | x :: xs, y :: ys => vbeq x y && vbeqList xs ys
  | _, _ => false

/-- Bindingwise equality of object contents. -/
def vbeqFields : List (String × Value) → List (String × Value) → Bool
  | [], [] => true
  | (k, x) :: xs, (l, y) :: ys => k == l && vbeq x y && vbeqFields xs ys
  | _, _ => false
end

/-! ## AST (ast.rs) -/

/-- `Expr`: the GROQ abstract syntax tree (`ast.rs`).  Constructor names
follow the Rust variants; `In` is rendered `inOp` (keyword clash). -/
inductive Expr where
  | stringLiteral (s : String)
  | intLiteral (n : Int)
  | floatLiteral (x : Float)
  | boolLiteral (b : Bool)
  | null
  | array (elems : List Expr)
  | ident (name : String)
  | dotAccess (base : Expr) (field : String)
  | deref (base : Expr) (field : String)
  | this
  | parent
  | eq (l r : Expr)
  | neq (l r : Expr)
  | lt (l r : Expr)
  | gt (l r : Expr)
  | lte (l r : Expr)
  | gte (l r : Expr)
  | inOp (l r : Expr)
  | and (l r : Expr)
  | or (l r : Expr)
  | not (inner : Expr)
  | everything
  | filter (inner : Expr)
  | projection (fields : List (String × Expr))
  | pipeline (stages : List Expr)
  | order (e : Expr) (ascending : Bool)
  | slice (e : Expr) (start stop : Int)
  | funcCall (name : String) (args : List Expr)
  | param (name : String)

/-! ## Evaluator (eval.rs) -/

/-- `EvalError` (eval.rs). -/
inductive EvalError where
  | typeError (msg : String)
  | unsupported
deriving DecidableEq

/-- The body of `eval_filter` applied to an already-computed result:
a boolean passes through, any other value coerces to `false`, an error
propagates.  (`eval_filter` itself is this composed with `eval_expr`;
the coercion is split out because Rust's `eval_expr` and `eval_filter`
are mutually recursive and the `And`/`Or`/`Not` arms inline it.) -/
def as_filter_bool : Except EvalError Value → Except EvalError Bool
  | .ok (.bool b) => .ok b
  | .ok _ => .ok false
  | .error e => .error e

/-- `eval_expr` (eval.rs).  The `And`/`Or` arms translate Rust's
`eval_filter(l)? && eval_filter(r)?` / `|| ` with their native
short-circuit: the right operand is only evaluated when the left one
does not decide the answer. -/
def eval_expr (expr : Expr) (doc : Value) (params : Value) : Except EvalError Value :=
  match expr with
  | .everything => .ok (.bool true)
  | .boolLiteral b => .ok (.bool b)
  | .intLiteral n => .ok (.num n)
  | .stringLiteral s => .ok (.str s)
  | .null => .ok .null
  | .ident name => .ok ((vget doc name).getD .null)
  | .dotAccess base field =>
    match eval_expr base doc params with
    | .error e => .error e
    | .ok v => .ok ((vget v field).getD .null)
  | .param name => .ok ((vget params name).getD .null)
  | .this => .ok doc
  | .eq l r =>
    match eval_expr l doc params with
    | .error e => .error e
    | .ok lv =>
      match eval_expr r doc params with
      | .error e => .error e
      | .ok rv => .ok (.bool (vbeq lv rv))
  | .neq l r =>
    match eval_expr l doc params with
    | .error e => .error e
    | .ok lv =>
      match eval_expr r doc params with
      | .error e => .error e
      | .ok rv => .ok (.bool (!vbeq lv rv))
  | .and l r =>
    match as_filter_bool (eval_expr l doc params) with
    | .error e => .error e
    | .ok a =>
      if a then
        match as_filter_bool (eval_expr r doc params) with
        | .error e => .error e
        | .ok b => .ok (.bool b)
      else .ok (.bool false)
  | .or l r =>
    match as_filter_bool (eval_expr l doc params) with
    | .error e => .error e
    | .ok a =>
      if a then .ok (.bool true)
      else
        match as_filter_bool (eval_expr r doc params) with
        | .error e => .error e
        | .ok b => .ok (.bool b)
  | .not inner =>
    match as_filter_bool (eval_expr inner doc params) with
    | .error e => .error e
    | .ok b => .ok (.bool (!b))
  | _ => .error .unsupported

/-- `eval_filter` (eval.rs): evaluate, coerce non-booleans to `false`. -/
def eval_filter (expr : Expr) (doc : Value) (params : Value) : Except EvalError Bool :=
  as_filter_bool (eval_expr expr doc params)

/-! ## Builtin functions (functions.rs) -/

/-- UTF-8 byte length of a Lean `String`, i.e. Rust `str::len`. -/
def utf8Len (s : String) : Nat :=
  s.data.foldl (fun n c => n + c.utf8Size) 0

/-- `builtin_count` (functions.rs). -/
def builtin_count (args : List Value) : Except EvalError Value :=
  match args.head? with
  | some (.arr arr) => .ok (.num arr.length)
  | some .null => .ok (.num 0)
  | _ => .error (.typeError "count() expects an array")

/-- `builtin_defined` (functions.rs). -/
def builtin_defined (args : List Value) : Except EvalError Value :=
  match args.head? with
  | some .null => .ok (.bool false)
  | none => .ok (.bool false)
  | _ => .ok (.bool true)

/-- `builtin_length` (functions.rs).  Rust's `s.len()` is the UTF-8
byte length of the string, hence `utf8Len`. -/
def builtin_length (args : List Value) : Except EvalError Value :=
  match args.head? with
  | some (.str s) => .ok (.num (utf8Len s))
  | some (.arr a) => .ok (.num a.length)
  | _ => .ok .null

mutual
/-- `value_references` (functions.rs): does any object nested in `val`
carry a `_ref` string field equal to `ref_id`?  The source's
`map.values().any` / `arr.iter().any` become the mutual list walkers. -/
def value_references (val : Value) (ref_id : String) : Bool :=
  match val with
  | .obj map =>
    (match lookupField map "_ref" with
     | some (.str r) => r == ref_id
     | _ => false)
    || fields_any map ref_id
  | .arr arr => elems_any arr ref_id
  | _ => false

/-- `arr.iter().any(|v| value_references(v, ref_id))`. -/
def elems_any : List Value → String → Bool
  | [], _ => false
  | v :: rest, ref_id => value_references v ref_id || elems_any rest ref_id

/-- `map.values().any(|v| value_references(v, ref_id))`. -/
def fields_any : List (String × Value) → String → Bool
  | [], _ => false
  | (_, v) :: rest, ref_id => value_references v ref_id || fields_any rest ref_id
end

/-- `builtin_references` (functions.rs): the source guards
`args.len() < 2` and then indexes `args[0]`, `args[1]`; the list match
below is that guard and those two reads. -/
def builtin_references (args : List Value) : Except EvalError Value :=
  match args with
  | doc :: refArg :: _ =>
    match refArg with
    | .str s => .ok (.bool (value_references doc s))
    | _ => .ok (.bool false)
  | _ => .error (.typeError "references() needs 2 args")

/-- `call_builtin` (functions.rs). -/
def call_builtin (name : String) (args : List Value) : Except EvalError Value :=
  match name with
  | "count" => builtin_count args
  | "defined" => builtin_defined args
  | "length" => builtin_length args
  | "references" => builtin_references args
  | _ => .error (.typeError ("unknown function: " ++ name))

/-! ## Lexer (lexer.rs) -/

/-- `Token` (lexer.rs).  Variant names follow the Rust enum; `Match`,
`In` and `At` are rendered `matchKw`, `inKw`, `atSign` (keyword
clashes). -/
inductive Token where
  | string (s : String)
  | integer (n : Int)
  | float (x : Float)
  | bool (b : Bool)
  | null
  | ident (s : String)
  | eq
  | neq
  | lt
  | gt
  | lte
  | gte
  | and
  | or
  | not
  | matchKw
  | inKw
  | asc
  | desc
  | star
  | dot
  | comma
  | colon
  | pipe
  | arrow
  | atSign
  | caret
  | ellipsis
  | lParen
  | rParen
  | lBracket
  | rBracket
  | lBrace
  | rBrace
  | eof
deriving BEq

/-- `Span` (lexer.rs): a half-open index range; the Rust field `end`
is rendered `stop` (keyword clash).  The scanner that fills it counts
positions in its `Vec<char>`. -/
structure Span where
  start : Nat
  stop : Nat
deriving DecidableEq

/-- `SpannedToken` (lexer.rs). -/
structure SpannedToken where
  token : Token
  span : Span

/-- `LexError` (lexer.rs). -/
inductive LexError where
  | unexpectedChar (c : Char) (pos : Nat)
  | unterminatedString (pos : Nat)
deriving DecidableEq

/-- Rust `char::is_whitespace`: the Unicode `White_Space` property,
reproduced exactly (it is a finite set). -/
def rustIsWhitespace (c : Char) : Bool :=
  (0x09 ≤ c.toNat && c.toNat ≤ 0x0D) || c.toNat == 0x20 || c.toNat == 0x85 ||
  c.toNat == 0xA0 || c.toNat == 0x1680 ||
  (0x2000 ≤ c.toNat && c.toNat ≤ 0x200A) ||
  c.toNat == 0x2028 || c.toNat == 0x2029 || c.toNat == 0x202F ||
  c.toNat == 0x205F || c.toNat == 0x3000

/-- Rust `char::is_alphabetic`, restricted to its ASCII fragment (the
full Unicode Alphabetic class is immaterial here: every identifier
character in the claims is ASCII). -/
def rustIsAlphabetic (c : Char) : Bool :=
  c.isAlpha

/-- Rust `char::is_alphanumeric`, restricted to its ASCII fragment
(same remark as `rustIsAlphabetic`). -/
def rustIsAlphanumeric (c : Char) : Bool :=
  c.isAlphanum

/-- The positive numeric-literal scan (lexer.rs 298-309): a run of
digits and dots, where a dot immediately followed by a second dot ends
the run *before* the dot; returns the consumed run, the `is_float`
flag (set when a dot was consumed), and the remaining characters. -/
def numRun : List Char → List Char × Bool × List Char
  | [] => ([], false, [])
  | c :: rest =>
    if c.isDigit then
      match numRun rest with
      | (run, isF, left) => (c :: run, isF, left)
    else if c = '.' then
      match rest with
      | '.' :: _ => ([], false, c :: rest)
      | _ =>
        match numRun rest with
        | (run, _, left) => (c :: run, true, left)
    else ([], false, c :: rest)

/-- The negative numeric-literal scan (lexer.rs 264-270): a run of
digits and dots with *no* double-dot early exit; `is_float` is set by
any dot. -/
def negNumRun : List Char → List Char × Bool × List Char
  | [] => ([], false, [])
  | c :: rest =>
    if c.isDigit || c = '.' then
      match negNumRun rest with
      | (run, isF, left) => (c :: run, isF || c = '.', left)
    else ([], false, c :: rest)

/-- Value of an all-digit run. -/
def digitsToNat (cs : List Char) : Nat :=
  cs.foldl (fun n c => n * 10 + (c.toNat - 48)) 0

/-- Rust `str::parse::<i64>` on the lexer's numeral slices: a nonempty
all-digit string parses to its value when it fits in an `i64`,
otherwise `Err` (`none`, which the lexer `unwrap`s into a panic). -/
def parseI64 (cs : List Char) : Option Int :=
  if cs ≠ [] ∧ cs.all Char.isDigit then
    if digitsToNat cs ≤ 9223372036854775807 then some (Int.ofNat (digitsToNat cs))
    else none
  else none

/-- Rust `str::parse::<f64>` on the lexer's numeral slices (runs of
digits and dots beginning with a digit): at most one dot is accepted
(a trailing dot included), yielding the decimal value; a second dot is
`Err` (`none`, `unwrap`ed into a panic by the lexer). -/
def parseF64 (cs : List Char) : Option Float :=
  if cs ≠ [] ∧ (cs.headD '0').isDigit ∧ cs.all (fun c => c.isDigit || c == '.')
      ∧ cs.count '.' ≤ 1 then
    some (Float.ofScientific (digitsToNat (cs.filter (fun c => c != '.'))) true
      ((cs.dropWhile (fun c => c != '.')).length - 1))
  else none

/-- The string-literal scan (lexer.rs 285-293): the raw content up to
the closing quote, a backslash skipping (but keeping) the character
after it; `none` when the input ends before the closing quote. -/
def strScan (quote : Char) : List Char → Option (List Char)
  | [] => none
  | c :: rest =>
    if c = quote then some []
    else if c = '\\' then
      match rest with
      | [] => none
      | d :: rest2 => (strScan quote rest2).map (fun t => c :: d :: t)
    else (strScan quote rest).map (fun t => c :: t)

/-- The keyword table (lexer.rs 322-331). -/
def keywordOrIdent (word : String) : Token :=
  match word with
  | "true" => .bool true
  | "false" => .bool false
  | "null" => .null
  | "match" => .matchKw
  | "in" => .inKw
  | "asc" => .asc
  | "desc" => .desc
  | _ => .ident word

/-- One iteration of the scanner loop: skip `n` characters emitting
nothing (whitespace, comments), emit one token consuming `n`
characters, fail with a `LexError`, or panic (a numeral whose
`parse().unwrap()` fails). -/
inductive LexStep where
  | skip (n : Nat)
  | emit (t : Token) (n : Nat)
  | fail (e : LexError)
  | panic

/-- Characters consumed by a scanner step (`0` for error/panic steps,
which end the scan). -/
def LexStep.consumed : LexStep → Nat
  | .skip n => n
  | .emit _ n => n
  | _ => 0

/-- The body of the scanner loop (lexer.rs 131-340), as a function of
the characters remaining from `pos` (the source iterates `pos` over a
`Vec<char>`; `pos` itself only feeds error offsets here).  Numeral,
identifier and string slices are taken from the char sequence; the
source slices `&input[start..pos]` with these char counts as *byte*
indices into the original `&str`, which denotes the same text whenever
the text before the slice is single-byte (true of every input a claim
evaluates, and of all ASCII input). -/
def lexStep (cs : List Char) (pos : Nat) : LexStep :=
  match cs with
  | [] => .skip 0
  | c :: rest =>
    if rustIsWhitespace c then .skip 1
    else if c = '/' && (match rest with | '/' :: _ => true | _ => false) then
      .skip (cs.takeWhile (fun x => x ≠ '\n')).length
    else if c = '*' then .emit .star 1
    else if c = '.' then
      match rest with
      | '.' :: '.' :: _ => .emit .ellipsis 3
      | _ => .emit .dot 1
    else if c = ',' then .emit .comma 1
    else if c = ':' then .emit .colon 1
    else if c = '@' then .emit .atSign 1
    else if c = '^' then .emit .caret 1
    else if c = '(' then .emit .lParen 1
    else if c = ')' then .emit .rParen 1
    else if c = '[' then .emit .lBracket 1
    else if c = ']' then .emit .rBracket 1
    else if c = '{' then .emit .lBrace 1
    else if c = '}' then .emit .rBrace 1
    else if c = '=' then
      match rest with
      | '=' :: _ => .emit .eq 2
      | _ => .fail (.unexpectedChar c pos)
    else if c = '!' then
      match rest with
      | '=' :: _ => .emit .neq 2
      | _ => .emit .not 1
    else if c = '<' then
      match rest with
      | '=' :: _ => .emit .lte 2
      | _ => .emit .lt 1
    else if c = '>' then
      match rest with
      | '=' :: _ => .emit .gte 2
      | _ => .emit .gt 1
    else if c = '&' then
      match rest with
      | '&' :: _ => .emit .and 2
      | _ => .fail (.unexpectedChar c pos)
    else if c = '|' then
      match rest with
      | '|' :: _ => .emit .or 2
      | _ => .emit .pipe 1
    else if c = '-' then
      match rest with
      | '>' :: _ => .emit .arrow 2
      | d :: _ =>
        if d.isDigit then
          match negNumRun rest with
          | (run, isF, _) =>
            if isF then
              match parseF64 run with
              | some x => .emit (.float (-x)) (1 + run.length)
              | none => .panic
            else
              match parseI64 run with
              | some n => .emit (.integer (-n)) (1 + run.length)
              | none => .panic
        else .fail (.unexpectedChar c pos)
      | [] => .fail (.unexpectedChar c pos)
    else if c = '"' || c = '\'' then
      match strScan c rest with
      | some content => .emit (.string (String.mk content)) (content.length + 2)
      | none => .fail (.unterminatedString pos)
    else if c.isDigit then
      match numRun cs with
      | (run, isF, _) =>
        if isF then
          match parseF64 run with
          | some x => .emit (.float x) run.length
          | none => .panic
        else
          match parseI64 run with
          | some n => .emit (.integer n) run.length
          | none => .panic
    else if rustIsAlphabetic c || c = '_' || c = '$' then
      let word := cs.takeWhile (fun x => rustIsAlphanumeric x || x = '_')
      .emit (keywordOrIdent (String.mk word)) word.length
    else .fail (.unexpectedChar c pos)

/-- The scanner loop (lexer.rs 131-350) with explicit fuel standing in
for the source's `while`: each iteration applies `lexStep` and
advances; once the characters are exhausted the trailing `Eof` token is
pushed with an empty span at the final position.  `none` models a
panic or a stalled loop (`tokenize` supplies fuel that a terminating
run never exhausts, since every productive step consumes a character). -/
def tokLoop : Nat → List Char → Nat → Option (Except LexError (List SpannedToken))
  | _, [], pos => some (.ok [⟨.eof, ⟨pos, pos⟩⟩])
  | 0, _ :: _, _ => none
  | fuel + 1, c :: rest, pos =>
    match lexStep (c :: rest) pos with
    | .skip n => tokLoop fuel ((c :: rest).drop n) (pos + n)
    | .emit t n =>
      (tokLoop fuel ((c :: rest).drop n) (pos + n)).map
        (fun r => r.map (fun ts => ⟨t, ⟨pos, pos + n⟩⟩ :: ts))
    | .fail e => some (.error e)
    | .panic => none

/-- `tokenize` (lexer.rs): scan the decoded characters of the input
left to right.  Spans record the scanner's `pos` counter — an index
into the `Vec<char>` of the input. -/
def tokenize (input : List Char) : Option (Except LexError (List SpannedToken)) :=
  tokLoop (input.length + 1) input 0

/-- Byte offset of the char at index `i` of `input` within its UTF-8
encoding (the offset a byte-measured span would have to carry). -/
def byteOff (input : List Char) (i : Nat) : Nat :=
  (input.take i).foldl (fun n c => n + c.utf8Size) 0

/-! ## Parser (parser.rs) -/

/-- `ParseError` (parser.rs).  The source stores `format!` Debug
renderings of the offending tokens in `UnexpectedToken`; the embedding
keeps the found token itself (which determines that text — no claim
reads it) beside the expectation string. -/
inductive ParseError where
  | lex (e : LexError)
  | unexpectedToken (found : Token) (expected : String)
  | unexpectedEof

/-- `Parser::peek` (parser.rs): the token at `pos`, `Eof` past the end. -/
def peek (tokens : List SpannedToken) (pos : Nat) : Token :=
  ((tokens.get? pos).map SpannedToken.token).getD .eof

/-- Debug-style name of a token kind (payloads elided); only used in
`ParseError` texts, which no claim inspects. -/
def tokenName (t : Token) : String :=
  match t with
  | .string _ => "String"
  | .integer _ => "Integer"
  | .float _ => "Float"
  | .bool _ => "Bool"
  | .null => "Null"
  | .ident _ => "Ident"
  | .eq => "Eq"
  | .neq => "Neq"
  | .lt => "Lt"
  | .gt => "Gt"
  | .lte => "Lte"
  | .gte => "Gte"
  | .and => "And"
  | .or => "Or"
  | .not => "Not"
  | .matchKw => "Match"
  | .inKw => "In"
  | .asc => "Asc"
  | .desc => "Desc"
  | .star => "Star"
  | .dot => "Dot"
  | .comma => "Comma"
  | .colon => "Colon"
  | .pipe => "Pipe"
  | .arrow => "Arrow"
  | .atSign => "At"
  | .caret => "Caret"
  | .ellipsis => "Ellipsis"
  | .lParen => "LParen"
  | .rParen => "RParen"
  | .lBracket => "LBracket"
  | .rBracket => "RBracket"
  | .lBrace => "LBrace"
  | .rBrace => "RBrace"
  | .eof => "Eof"

/-- `Parser::expect` (parser.rs): consume one token, error on mismatch. -/
def expect (tokens : List SpannedToken) (pos : Nat) (expected : Token) :
    Except ParseError Nat :=
  if peek tokens pos == expected then .ok (pos + 1)
  else .error (.unexpectedToken (peek tokens pos) (tokenName expected))

/-- Result of one parsing routine: `none` is exhausted fuel (the
source's routines always terminate on a finite token list; `parse`
supplies ample fuel), otherwise the routine's `Result` together with
the parser position it left off at. -/
def PRes (α : Type) : Type :=
  Option (Except ParseError (α × Nat))

/-- Success with a value at a position. -/
def pok {α : Type} (a : α) (pos : Nat) : PRes α :=
  some (.ok (a, pos))

/-- A parse error. -/
def perr {α : Type} (e : ParseError) : PRes α :=
  some (.error e)

/-- Sequencing of parsing routines (Rust's `?` plus continuing at the
returned position). -/
def pbind {α β : Type} (x : PRes α) (f : α → Nat → PRes β) : PRes β :=
  match x with
  | none => none
  | some (.error e) => some (.error e)
  | some (.ok (a, pos)) => f a pos

/-- `expect` lifted into `PRes`. -/
def pexpect {α : Type} (tokens : List SpannedToken) (pos : Nat) (expected : Token)
    (k : Nat → PRes α) : PRes α :=
  match expect tokens pos expected with
  | .error e => perr e
  | .ok pos2 => k pos2

/-- The dot-access chain of `parse_primary` (parser.rs 166-175): while
a `.` follows, consume it; an identifier after it extends the chain,
anything else breaks out (the consumed dot stays consumed). -/
def dot_chain (tokens : List SpannedToken) : Nat → Nat → Expr → PRes Expr
  | 0, _, _ => none
  | fuel + 1, pos, expr =>
    if peek tokens pos == .dot then
      match peek tokens (pos + 1) with
      | .ident field => dot_chain tokens fuel (pos + 2) (.dotAccess expr field)
      | _ => pok expr (pos + 1)
    else pok expr pos

/-- The call-argument loop of `parse_primary` (parser.rs 192-196):
while a comma follows, consume it and parse one more filter-expression
argument.  The source's parser methods are mutually recursive; the
embedding passes the filter-expression parser in as `pfe` (the loop's
recursion itself is structural on its fuel). -/
def args_loop (tokens : List SpannedToken) (pfe : Nat → PRes Expr) :
    Nat → Nat → List Expr → PRes (List Expr)
  | 0, _, _ => none
  | fuel + 1, pos, acc =>
    if peek tokens pos == .comma then
      pbind (pfe (pos + 1)) (fun e pos2 =>
        args_loop tokens pfe fuel pos2 (acc ++ [e]))
    else pok acc pos

/-- `Parser::parse_primary` (parser.rs 160-261).  `pfe` is the
filter-expression parser (see `args_loop` on the unknotted mutual
recursion); the `!`-arm recursion on another primary is structural on
the fuel. -/
def parse_primary (tokens : List SpannedToken) (pfe : Nat → PRes Expr) :
    Nat → Nat → PRes Expr
  | 0, _ => none
  | fuel + 1, pos =>
    match peek tokens pos with
    | .ident name =>
      pbind (dot_chain tokens fuel (pos + 1) (.ident name)) (fun expr pos =>
        -- Handle dereference: a->b (the arrow is consumed even when no
        -- identifier follows it, exactly as in the source)
        let step : Expr × Nat :=
          if peek tokens pos == .arrow then
            match peek tokens (pos + 1) with
            | .ident field => (.deref expr field, pos + 2)
            | _ => (expr, pos + 1)
          else (expr, pos)
        match step with
        | (expr, pos) =>
          -- Handle function calls: fn(args), only when the base stayed a
          -- bare identifier
          if peek tokens pos == .lParen then
            match expr with
            | .ident fn_name =>
              if peek tokens (pos + 1) == .rParen then
                pexpect tokens (pos + 1) .rParen (fun pos =>
                  pok (.funcCall fn_name []) pos)
              else
                pbind (pfe (pos + 1)) (fun arg0 pos =>
                  pbind (args_loop tokens pfe fuel pos [arg0]) (fun args pos =>
                    pexpect tokens pos .rParen (fun pos =>
                      pok (.funcCall fn_name args) pos)))
            | _ => pok expr pos
          else pok expr pos)
    | .string s =>
      pok (.stringLiteral s) (pos + 1)
    | .integer n =>
      pok (.intLiteral n) (pos + 1)
    | .float x =>
      pok (.floatLiteral x) (pos + 1)
    | .bool b =>
      pok (.boolLiteral b) (pos + 1)
    | .null =>
      pok .null (pos + 1)
    | .atSign =>
      pok .this (pos + 1)
    | .caret =>
      pok .parent (pos + 1)
    | .not =>
      pbind (parse_primary tokens pfe fuel (pos + 1)) (fun expr pos =>
        pok (.not expr) pos)
    | .lParen =>
      pbind (pfe (pos + 1)) (fun expr pos =>
        pexpect tokens pos .rParen (fun pos =>
          pok expr pos))
    | .lBracket =>
      if peek tokens (pos + 1) == .rBracket then
        pexpect tokens (pos + 1) .rBracket (fun pos =>
          pok (.array []) pos)
      else
        pbind (pfe (pos + 1)) (fun item0 pos =>
          pbind (args_loop tokens pfe fuel pos [item0]) (fun items pos =>
            pexpect tokens pos .rBracket (fun pos =>
              pok (.array items) pos)))
    | .eof => perr .unexpectedEof
    | other => perr (.unexpectedToken other "expression")

/-- `Parser::parse_comparison` (parser.rs 117-158): a primary,
optionally followed by one comparison operator and one more primary
(`pfe` as in `parse_primary`). -/
def parse_comparison (tokens : List SpannedToken) (pfe : Nat → PRes Expr)
    (fuel : Nat) (pos : Nat) : PRes Expr :=
  pbind (parse_primary tokens pfe fuel pos) (fun left pos =>
    match peek tokens pos with
    | .eq =>
      pbind (parse_primary tokens pfe fuel (pos + 1)) (fun right pos =>
        pok (.eq left right) pos)
    | .neq =>
      pbind (parse_primary tokens pfe fuel (pos + 1)) (fun right pos =>
        pok (.neq left right) pos)
    | .lt =>
      pbind (parse_primary tokens pfe fuel (pos + 1)) (fun right pos =>
        pok (.lt left right) pos)
    | .gt =>
      pbind (parse_primary tokens pfe fuel (pos + 1)) (fun right pos =>
        pok (.gt left right) pos)
    | .lte =>
      pbind (parse_primary tokens pfe fuel (pos + 1)) (fun right pos =>
        pok (.lte left right) pos)
    | .gte =>
      pbind (parse_primary tokens pfe fuel (pos + 1)) (fun right pos =>
        pok (.gte left right) pos)
    | .inKw =>
      pbind (parse_primary tokens pfe fuel (pos + 1)) (fun right pos =>
        pok (.inOp left right) pos)
    | _ => pok left pos)

/-- `Parser::parse_filter_expr` (parser.rs 99-115): a comparison, then
optionally `&&` or `||` followed by a whole filter expression
(right-recursive; the two operators share one tier).  This is the knot
of the source's mutual recursion: the lower layers receive this parser
(one fuel step down) as their `pfe`. -/
def parse_filter_expr (tokens : List SpannedToken) : Nat → Nat → PRes Expr
  | 0, _ => none
  | fuel + 1, pos =>
    pbind (parse_comparison tokens (fun p => parse_filter_expr tokens fuel p) fuel pos)
      (fun left pos =>
        match peek tokens pos with
        | .and =>
          pbind (parse_filter_expr tokens fuel (pos + 1)) (fun right pos =>
            pok (.and left right) pos)
        | .or =>
          pbind (parse_filter_expr tokens fuel (pos + 1)) (fun right pos =>
            pok (.or left right) pos)
        | _ => pok left pos)

/-- The field loop of `Parser::parse_projection` (parser.rs 274-299):
each trip parses one field (`...`, quoted alias, or bare identifier),
then skips an optional comma and loops; an unrecognized token breaks
out; `}` or `Eof` ends the loop. -/
def proj_loop (tokens : List SpannedToken) :
    Nat → Nat → List (String × Expr) → PRes (List (String × Expr))
  | 0, _, _ => none
  | fuel + 1, pos, fields =>
    if peek tokens pos != .rBrace && peek tokens pos != .eof then
      -- each arm below ends the loop body: skip an optional comma, loop
      let next : List (String × Expr) → Nat → PRes (List (String × Expr)) :=
        fun fields2 pos2 =>
          if peek tokens pos2 == .comma then proj_loop tokens fuel (pos2 + 1) fields2
          else proj_loop tokens fuel pos2 fields2
      match peek tokens pos with
      | .ellipsis => next (fields ++ [("...", Expr.everything)]) (pos + 1)
      | .string aliasName =>
        (match expect tokens (pos + 1) .colon with
         | .error e => perr e
         | .ok pos2 =>
           pbind (parse_filter_expr tokens fuel pos2) (fun e pos3 =>
             next (fields ++ [(aliasName, e)]) pos3))
      | .ident name =>
        if peek tokens (pos + 1) == .colon then
          pbind (parse_filter_expr tokens fuel (pos + 2)) (fun e pos3 =>
            next (fields ++ [(name, e)]) pos3)
        else next (fields ++ [(name, Expr.ident name)]) (pos + 1)
      | _ => pok fields pos
    else pok fields pos

/-- `Parser::parse_projection` (parser.rs 263-302): an optional leading
`...` (with optional comma), then the field loop. -/
def parse_projection (tokens : List SpannedToken) (fuel : Nat) (pos : Nat) :
    PRes (List (String × Expr)) :=
  match fuel with
  | 0 => none
  | fuel + 1 =>
    if peek tokens pos == .ellipsis then
      let fields : List (String × Expr) := [("...", Expr.everything)]
      if peek tokens (pos + 1) == .comma then proj_loop tokens fuel (pos + 2) fields
      else proj_loop tokens fuel (pos + 1) fields
    else proj_loop tokens fuel pos []

/-- `Parser::parse_pipe_expr` (parser.rs 304-328): only
`order(primary [asc|desc])` is special; everything else falls back to a
filter expression. -/
def parse_pipe_expr (tokens : List SpannedToken) (fuel : Nat) (pos : Nat) : PRes Expr :=
  match fuel with
  | 0 => none
  | fuel + 1 =>
    match peek tokens pos with
    | .ident name =>
      if name = "order" then
        match expect tokens (pos + 1) .lParen with
        | .error e => perr e
        | .ok pos2 =>
          pbind (parse_primary tokens (fun p => parse_filter_expr tokens fuel p) fuel pos2)
            (fun field pos3 =>
              let step : Bool × Nat :=
                if peek tokens pos3 == .desc then (false, pos3 + 1)
                else if peek tokens pos3 == .asc then (true, pos3 + 1)
                else (true, pos3)
              match step with
              | (ascending, pos4) =>
                pexpect tokens pos4 .rParen (fun pos5 =>
                  pok (.order field ascending) pos5))
      else parse_filter_expr tokens fuel pos
    | _ => parse_filter_expr tokens fuel pos

/-- `Parser::parse_expr` (parser.rs 60-97): the top level — `*`, then
optionally `[filter]` and then a `{projection}` or `| pipe` stage,
assembled into a `Pipeline`; anything else is a filter expression. -/
def parse_expr (tokens : List SpannedToken) (fuel : Nat) (pos : Nat) : PRes Expr :=
  match fuel with
  | 0 => none
  | fuel + 1 =>
    match peek tokens pos with
    | .star =>
      let pos := pos + 1
      if peek tokens pos == .lBracket then
        pbind (parse_filter_expr tokens fuel (pos + 1)) (fun filter pos =>
          pexpect tokens pos .rBracket (fun pos =>
            if peek tokens pos == .lBrace then
              pbind (parse_projection tokens fuel (pos + 1)) (fun projection pos =>
                pexpect tokens pos .rBrace (fun pos =>
                  pok (.pipeline [.everything, .filter filter, .projection projection]) pos))
            else if peek tokens pos == .pipe then
              pbind (parse_pipe_expr tokens fuel (pos + 1)) (fun pipe pos =>
                pok (.pipeline [.everything, .filter filter, pipe]) pos)
            else
              pok (.pipeline [.everything, .filter filter]) pos))
      else pok .everything pos
    | _ => parse_filter_expr tokens fuel pos

/-- `parse` (parser.rs 16-20): tokenize, then run `parse_expr` from
position 0, returning its expression — the remaining tokens are not
required to be consumed.  The fuel bounds the parser's recursion depth
and loop trips; each unit of nesting or looping consumes tokens, so
`4 * tokens + 16` never runs out on the source's terminating runs. -/
def parse (input : List Char) : Option (Except ParseError Expr) :=
  match tokenize input with
  | none => none
  | some (.error e) => some (.error (.lex e))
  | some (.ok tokens) =>
    match parse_expr tokens (4 * tokens.length + 16) 0 with
    | none => none
    | some (.error e) => some (.error e)
    | some (.ok (expr, _)) => some (.ok expr)

end Groq

/-! ## Specification predicate for `references` -/

namespace Groq

/-- The claimed meaning of `references(doc, refId)`: some object nested
anywhere inside the value — the value itself, an object field's value,
or an array element, through any depth — carries a `"_ref"` field whose
value is the string `ref_id`. -/
inductive HasRef (ref_id : String) : Value → Prop where
  | here (fields : List (String × Value)) :
      lookupField fields "_ref" = some (.str ref_id) → HasRef ref_id (.obj fields)
  | inField (fields : List (String × Value)) (k : String) (v : Value) :
      (k, v) ∈ fields → HasRef ref_id v → HasRef ref_id (.obj fields)
  | inElem (elems : List Value) (v : Value) :
      v ∈ elems → HasRef ref_id v → HasRef ref_id (.arr elems)

/-! ## Theorems: the claims -/

/-- C1, counterexample.  The claim says `eval_expr` maps
`FloatLiteral(x)` to `Ok` of its value; in the source the evaluator's
match has no `FloatLiteral` arm, so the node falls to the catch-all and
yields the `Unsupported` error. -/
theorem float_literal_not_evaluated :
    eval_expr (.floatLiteral 1.5) .null .null = .error .unsupported :=
  rfl

/-- C1, amended.  `FloatLiteral` is among the node kinds that yield the
`Unsupported` error: for every float, document and parameter table,
`eval_expr` on `FloatLiteral(x)` returns `Err(Unsupported)`. -/
theorem float_literal_unsupported :
    ∀ (x : Float) (doc params : Value),
      eval_expr (.floatLiteral x) doc params = .error .unsupported :=
  fun _ _ _ => rfl

/-- C2.  Short-circuiting: when the left operand of `And` filters to
`Ok(false)` the whole conjunction is `Ok(false)` whatever the right
operand is (in particular no error of the right operand surfaces);
dually, a left operand filtering to `Ok(true)` makes `Or` return
`Ok(true)`. -/
theorem and_or_short_circuit :
    ∀ (l x : Expr) (doc params : Value),
      (eval_filter l doc params = .ok false →
        eval_filter (.and l x) doc params = .ok false) ∧
      (eval_filter l doc params = .ok true →
        eval_filter (.or l x) doc params = .ok true) := by
  intro l x doc params
  constructor
  · intro h
    simp only [eval_filter] at h ⊢
    simp only [eval_expr]
    rw [h]
    rfl
  · intro h
    simp only [eval_filter] at h ⊢
    simp only [eval_expr]
    rw [h]
    rfl

/-- C2, witness: a `false` literal short-circuits `And` past a right
operand (`Parent`) that errors in isolation; dually for `Or`. -/
theorem and_or_short_circuit_witness :
    eval_filter (.and (.boolLiteral false) .parent) .null .null = .ok false ∧
    eval_filter (.or (.boolLiteral true) .parent) .null .null = .ok true ∧
    eval_filter .parent .null .null = .error .unsupported :=
  ⟨(and_or_short_circuit (.boolLiteral false) .parent .null .null).1 rfl,
   (and_or_short_circuit (.boolLiteral true) .parent .null .null).2 rfl,
   rfl⟩

/-- C4, counterexample.  The claim says `length` of a string counts its
characters; the source computes `s.len()`, the UTF-8 *byte* length: on
the one-character string `"é"` it returns `2`, not `1`. -/
theorem length_counts_bytes_not_chars :
    call_builtin "length" [.str "é"] = .ok (.num 2) ∧
    "é".data.length = 1 ∧ (2 : Int) ≠ (1 : Int) :=
  ⟨rfl, rfl, by decide⟩

/-- C4, amended.  `length(v)`: a string maps to its UTF-8 byte count
(`str::len`; equal to the character count exactly on single-byte
text), an array to its element count, anything else — including no
argument — to `null`, never an error. -/
theorem length_byte_count :
    (∀ s : String, call_builtin "length" [.str s] = .ok (.num (utf8Len s))) ∧
    (∀ a : List Value, call_builtin "length" [.arr a] = .ok (.num a.length)) ∧
    (∀ (v : Value) (rest : List Value), (∀ s, v ≠ Value.str s) →
      (∀ a, v ≠ Value.arr a) → call_builtin "length" (v :: rest) = .ok .null) ∧
    call_builtin "length" [] = .ok .null := by
  refine ⟨fun s => rfl, fun a => rfl, ?_, rfl⟩
  intro v rest hs ha
  cases v with
  | str s => exact absurd rfl (hs s)
  | arr a => exact absurd rfl (ha a)
  | null => rfl
  | bool b => rfl
  | num n => rfl
  | obj fields => rfl

/-- C4, amended, witness at concrete inputs (a two-byte one-character
string, an array, a non-string non-array argument). -/
theorem length_byte_count_witness :
    call_builtin "length" [.str "é"] = .ok (.num (utf8Len "é")) ∧
    call_builtin "length" [.arr [.null, .null]] = .ok (.num ([Value.null, Value.null].length)) ∧
    call_builtin "length" [.num 7] = .ok .null :=
  ⟨length_byte_count.1 "é",
   length_byte_count.2.1 [.null, .null],
   length_byte_count.2.2.1 (.num 7) [] (fun _ h => by cases h) (fun _ h => by cases h)⟩

/-- The run consumed by the positive numeral scan never exceeds the
input. -/
theorem numRun_run_le : ∀ l : List Char, (numRun l).1.length ≤ l.length := by
  intro l
  induction l with
  | nil => simp [numRun]
  | cons c rest ih =>
    simp only [numRun]
    by_cases hd : c.isDigit
    · simp only [if_pos hd]
      simpa using ih
    · simp only [if_neg hd]
      by_cases hdot : c = '.'
      · simp only [if_pos hdot]
        split
        · simp
        · simpa using ih
      · simp only [if_neg hdot]
        simp

/-- The run consumed by the negative numeral scan never exceeds the
input. -/
theorem negNumRun_run_le : ∀ l : List Char, (negNumRun l).1.length ≤ l.length := by
  intro l
  induction l with
  | nil => simp [negNumRun]
  | cons c rest ih =>
    simp only [negNumRun]
    split
    · simpa using ih
    · simp

/-- A scanned string literal's content is strictly shorter than the
text after its opening quote (the closing quote is consumed too). -/
theorem strScan_lt (q : Char) : ∀ (l t : List Char), strScan q l = some t → t.length < l.length := by
  suffices H : ∀ (n : Nat) (l t : List Char), l.length ≤ n → strScan q l = some t → t.length < l.length by
    exact fun l t h => H l.length l t le_rfl h
  intro n
  induction n with
  | zero =>
    intro l t hl h
    cases l with
    | nil => simp [strScan] at h
    | cons c rest => simp at hl
  | succ n ihn =>
    intro l t hl h
    cases l with
    | nil => simp [strScan] at h
    | cons c rest =>
      unfold strScan at h
      split at h
      · simp only [Option.some.injEq] at h
        subst h
        simp
      · split at h
        · split at h
          · simp at h
          · next d rest2 =>
            cases hs : strScan q rest2 with
            | none => rw [hs] at h; simp at h
            | some t2 =>
              rw [hs] at h
              simp only [Option.map_some', Option.some.injEq] at h
              subst h
              have hlt := ihn rest2 t2 (by simp at hl ⊢; omega) hs
              simp at hl ⊢
              omega
        · cases hs : strScan q rest with
          | none => rw [hs] at h; simp at h
          | some t2 =>
            rw [hs] at h
            simp only [Option.map_some', Option.some.injEq] at h
            subst h
            have hlt := ihn rest t2 (by simp at hl; omega) hs
            simp at hl ⊢
            omega

set_option maxHeartbeats 1000000 in
/-- No scanner step consumes more characters than remain. -/
theorem lexStep_consumed_le (cs : List Char) (pos : Nat) :
    (lexStep cs pos).consumed ≤ cs.length := by
  unfold lexStep
  split
  · simp [LexStep.consumed]
  next c rest =>
  by_cases h1 : rustIsWhitespace c = true
  · rw [if_pos h1]; simp [LexStep.consumed]
  rw [if_neg h1]
  by_cases h2 : (c = '/' && (match rest with | '/' :: _ => true | _ => false)) = true
  · rw [if_pos h2]
    simp only [LexStep.consumed]
    exact (List.takeWhile_prefix _).length_le
  rw [if_neg h2]
  clear h1 h2
  by_cases h3 : c = '*'
  · rw [if_pos h3]; simp [LexStep.consumed]
  rw [if_neg h3]
  by_cases h4 : c = '.'
  · rw [if_pos h4]
    split
    · simp only [LexStep.consumed, List.length_cons]; omega
    · simp only [LexStep.consumed, List.length_cons]; omega
  rw [if_neg h4]
  by_cases h5 : c = ','
  · rw [if_pos h5]; simp [LexStep.consumed]
  rw [if_neg h5]
  by_cases h6 : c = ':'
  · rw [if_pos h6]; simp [LexStep.consumed]
  rw [if_neg h6]
  by_cases h7 : c = '@'
  · rw [if_pos h7]; simp [LexStep.consumed]
  rw [if_neg h7]
  by_cases h8 : c = '^'
  · rw [if_pos h8]; simp [LexStep.consumed]
  rw [if_neg h8]
  by_cases h9 : c = '('
  · rw [if_pos h9]; simp [LexStep.consumed]
  rw [if_neg h9]
  by_cases h10 : c = ')'
  · rw [if_pos h10]; simp [LexStep.consumed]
  rw [if_neg h10]
  by_cases h11 : c = '['
  · rw [if_pos h11]; simp [LexStep.consumed]
  rw [if_neg h11]
  by_cases h12 : c = ']'
  · rw [if_pos h12]; simp [LexStep.consumed]
  rw [if_neg h12]
  by_cases h13 : c = '{'
  · rw [if_pos h13]; simp [LexStep.consumed]
  rw [if_neg h13]
  by_cases h14 : c = '}'
  · rw [if_pos h14]; simp [LexStep.consumed]
  rw [if_neg h14]
  clear h3 h4 h5 h6 h7 h8 h9 h10 h11 h12 h13 h14
  by_cases h15 : c = '='
  · rw [if_pos h15]
    split
    · simp only [LexStep.consumed, List.length_cons]; omega
    · simp only [LexStep.consumed, List.length_cons]; omega
  rw [if_neg h15]
  by_cases h16 : c = '!'
  · rw [if_pos h16]
    split
    · simp only [LexStep.consumed, List.length_cons]; omega
    · simp only [LexStep.consumed, List.length_cons]; omega
  rw [if_neg h16]
  by_cases h17 : c = '<'
  · rw [if_pos h17]
    split
    · simp only [LexStep.consumed, List.length_cons]; omega
    · simp only [LexStep.consumed, List.length_cons]; omega
  rw [if_neg h17]
  by_cases h18 : c = '>'
  · rw [if_pos h18]
    split
    · simp only [LexStep.consumed, List.length_cons]; omega
    · simp only [LexStep.consumed, List.length_cons]; omega
  rw [if_neg h18]
  by_cases h19 : c = '&'
  · rw [if_pos h19]
    split
    · simp only [LexStep.consumed, List.length_cons]; omega
    · simp only [LexStep.consumed, List.length_cons]; omega
  rw [if_neg h19]
  by_cases h20 : c = '|'
  · rw [if_pos h20]
    split
    · simp only [LexStep.consumed, List.length_cons]; omega
    · simp only [LexStep.consumed, List.length_cons]; omega
  rw [if_neg h20]
  clear h15 h16 h17 h18 h19 h20
  by_cases h21 : c = '-'
  · rw [if_pos h21]
    split
    · simp only [LexStep.consumed, List.length_cons]; omega
    · next r d tail hne =>
      by_cases hd : d.isDigit = true
      · rw [if_pos hd]
        split
        next run isF snd heq =>
          have hrun := negNumRun_run_le (d :: tail)
          rw [heq] at hrun
          simp only at hrun
          by_cases hf : isF = true
          · rw [if_pos hf]
            split
            · simp only [LexStep.consumed, List.length_cons] at *; omega
            · simp only [LexStep.consumed, List.length_cons]; omega
          · rw [if_neg hf]
            split
            · simp only [LexStep.consumed, List.length_cons] at *; omega
            · simp only [LexStep.consumed, List.length_cons]; omega
      · rw [if_neg hd]
        simp [LexStep.consumed]
    · simp [LexStep.consumed]
  rw [if_neg h21]
  by_cases h22 : (c = '"' || c = '\'') = true
  · rw [if_pos h22]
    split
    · next content heq =>
      have := strScan_lt c rest content heq
      simp only [LexStep.consumed, List.length_cons]
      omega
    · simp [LexStep.consumed]
  rw [if_neg h22]
  by_cases h23 : c.isDigit = true
  · rw [if_pos h23]
    split
    next run isF snd heq =>
      have hrun := numRun_run_le (c :: rest)
      rw [heq] at hrun
      simp only at hrun
      by_cases hf : isF = true
      · rw [if_pos hf]
        split
        · simp only [LexStep.consumed, List.length_cons] at *; omega
        · simp only [LexStep.consumed, List.length_cons]; omega
      · rw [if_neg hf]
        split
        · simp only [LexStep.consumed, List.length_cons] at *; omega
        · simp only [LexStep.consumed, List.length_cons]; omega
  rw [if_neg h23]
  by_cases h24 : (rustIsAlphabetic c || c = '_' || c = '$') = true
  · rw [if_pos h24]
    simp only [LexStep.consumed]
    exact (List.takeWhile_prefix _).length_le
  rw [if_neg h24]
  simp [LexStep.consumed]

/-- Exhausted input yields exactly the trailing `Eof` token, whatever
the fuel. -/
theorem tokLoop_nil (fuel pos : Nat) :
    tokLoop fuel [] pos = some (.ok [⟨.eof, ⟨pos, pos⟩⟩]) := by
  cases fuel <;> rfl

/-- Invariant of the scanner loop: on success the token list ends with
the `Eof` token spanning `[p, p)` at `p` = start position plus the
*char* count of the remaining input, and every span is ordered and
bounded by that char count. -/
theorem tokLoop_spans : ∀ (fuel : Nat) (cs : List Char) (pos : Nat) (ts : List SpannedToken),
    tokLoop fuel cs pos = some (.ok ts) →
    (∃ pre, ts = pre ++ [⟨.eof, ⟨pos + cs.length, pos + cs.length⟩⟩]) ∧
    ∀ st ∈ ts, pos ≤ st.span.start ∧ st.span.start ≤ st.span.stop ∧
      st.span.stop ≤ pos + cs.length := by
  intro fuel
  induction fuel with
  | zero =>
    intro cs pos ts h
    cases cs with
    | nil =>
      rw [tokLoop_nil] at h
      simp only [Option.some.injEq, Except.ok.injEq] at h
      subst h
      refine ⟨⟨[], by simp⟩, ?_⟩
      intro st hst
      simp only [List.mem_singleton] at hst
      subst hst
      simp
    | cons c rest =>
      rw [show tokLoop 0 (c :: rest) pos = none from rfl] at h
      simp at h
  | succ fuel ih =>
    intro cs pos ts h
    cases cs with
    | nil =>
      rw [tokLoop_nil] at h
      simp only [Option.some.injEq, Except.ok.injEq] at h
      subst h
      refine ⟨⟨[], by simp⟩, ?_⟩
      intro st hst
      simp only [List.mem_singleton] at hst
      subst hst
      simp
    | cons c rest =>
      have hcons : tokLoop (fuel + 1) (c :: rest) pos =
          (match lexStep (c :: rest) pos with
           | .skip n => tokLoop fuel ((c :: rest).drop n) (pos + n)
           | .emit t n =>
             (tokLoop fuel ((c :: rest).drop n) (pos + n)).map
               (fun r => r.map (fun ts => ⟨t, ⟨pos, pos + n⟩⟩ :: ts))
           | .fail e => some (.error e)
           | .panic => none) := rfl
      rw [hcons] at h
      have hle := lexStep_consumed_le (c :: rest) pos
      cases hstep : lexStep (c :: rest) pos with
      | skip n =>
        rw [hstep] at hle
        simp only [hstep] at h
        simp only [LexStep.consumed] at hle
        obtain ⟨⟨pre, hpre⟩, hb⟩ := ih _ _ _ h
        simp only [List.length_drop] at hpre
        have hX : pos + n + ((c :: rest).length - n) = pos + (c :: rest).length := by omega
        rw [hX] at hpre
        refine ⟨⟨pre, hpre⟩, ?_⟩
        intro st hst
        obtain ⟨hb1, hb2, hb3⟩ := hb st hst
        simp only [List.length_drop] at hb3
        exact ⟨by omega, hb2, by omega⟩
      | emit t n =>
        rw [hstep] at hle
        simp only [hstep] at h
        simp only [LexStep.consumed] at hle
        cases hrec : tokLoop fuel ((c :: rest).drop n) (pos + n) with
        | none => rw [hrec] at h; simp at h
        | some r =>
          rw [hrec] at h
          cases r with
          | error e => simp [Except.map] at h
          | ok ts2 =>
            simp only [Option.map_some', Except.map, Option.some.injEq,
              Except.ok.injEq] at h
            subst h
            obtain ⟨⟨pre, hpre⟩, hb⟩ := ih _ _ _ hrec
            simp only [List.length_drop] at hpre
            have hX : pos + n + ((c :: rest).length - n) = pos + (c :: rest).length := by
              omega
            rw [hX] at hpre
            refine ⟨⟨⟨t, ⟨pos, pos + n⟩⟩ :: pre, by rw [hpre]; rfl⟩, ?_⟩
            intro st hst
            rcases List.mem_cons.mp hst with rfl | hmem
            · refine ⟨Nat.le_refl pos, Nat.le_add_right pos n, ?_⟩
              show pos + n ≤ pos + (c :: rest).length
              simp only [List.length_cons] at hle ⊢
              omega
            · obtain ⟨hb1, hb2, hb3⟩ := hb st hmem
              simp only [List.length_drop] at hb3
              exact ⟨by omega, hb2, by omega⟩
      | fail e =>
        simp only [hstep] at h
        simp at h
      | panic =>
        simp only [hstep] at h
        simp at h

/-- C3, counterexample.  The claim says spans are byte-offset ranges;
the scanner counts positions in a `Vec<char>`.  On the input
`U+00A0 (no-break space, 2 bytes in UTF-8), '*'` the star token's text
occupies bytes `[2,3)` of the source but its span is `[1,2)` — the
char-index range. -/
theorem span_not_byte_offsets :
    tokenize [Char.ofNat 0xA0, '*'] =
      some (.ok [⟨.star, ⟨1, 2⟩⟩, ⟨.eof, ⟨2, 2⟩⟩]) ∧
    byteOff [Char.ofNat 0xA0, '*'] 1 = 2 ∧
    byteOff [Char.ofNat 0xA0, '*'] 2 = 3 ∧
    (⟨1, 2⟩ : Span) ≠ ⟨2, 3⟩ :=
  ⟨rfl, rfl, rfl, by decide⟩

/-- C3, amended.  Spans measure positions in the sequence of chars
(Unicode scalar values) of the input, not bytes: on every successful
tokenization the trailing `Eof` token sits at `[n,n)` where `n` is the
input's *char* count, and every span is an ordered pair bounded by
that char count.  Spans therefore agree with byte offsets exactly when
the preceding text is single-byte. -/
theorem spans_are_char_indices :

    ∀ (input : List Char) (ts : List SpannedToken),
      tokenize input = some (.ok ts) →
      (∃ pre, ts = pre ++ [⟨.eof, ⟨input.length, input.length⟩⟩]) ∧
      ∀ st ∈ ts, st.span.start ≤ st.span.stop ∧ st.span.stop ≤ input.length := by
  intro input ts h
  obtain ⟨hpre, hb⟩ := tokLoop_spans (input.length + 1) input 0 ts h
  simp only [Nat.zero_add] at hpre hb
  exact ⟨hpre, fun st hst => ⟨(hb st hst).2.1, (hb st hst).2.2⟩⟩

/-- C3, amended, witness: the span theorem applied to the one-token
input `"*"`. -/
theorem spans_are_char_indices_witness :

    (∃ pre, ([⟨.star, ⟨0, 1⟩⟩, ⟨.eof, ⟨1, 1⟩⟩] : List SpannedToken) =
      pre ++ [⟨.eof, ⟨"*".data.length, "*".data.length⟩⟩]) ∧
    ∀ st ∈ ([⟨.star, ⟨0, 1⟩⟩, ⟨.eof, ⟨1, 1⟩⟩] : List SpannedToken),
      st.span.start ≤ st.span.stop ∧ st.span.stop ≤ "*".data.length :=
  spans_are_char_indices "*".data [⟨.star, ⟨0, 1⟩⟩, ⟨.eof, ⟨1, 1⟩⟩] rfl

/-- C5, counterexample.  The claim extends the double-dot early exit
to negative-signed runs; the source's negative branch has no such
check: on `"-1..5"` the run consumes all of `1..5`, the consumed dot
marks a float, and `"1..5".parse::<f64>().unwrap()` panics — no
`Integer(-1)` is ever produced. -/
theorem negative_numeral_consumes_double_dot :
    tokenize "-1..5".data = none ∧
    negNumRun "1..5".data = ("1..5".data, true, []) ∧
    parseF64 "1..5".data = none :=
  ⟨rfl, rfl, rfl⟩

/-- C5, amended.  The double-dot early exit is a feature of the
*unsigned* numeral scan only: an all-digit run followed by `..` stops
before the first dot with the float flag unset (hence an integer
literal); concretely `"1..5"` tokenizes as integer `1`, dot, dot,
integer `5`, and `"-7"` as the single token `Integer(-7)`.  (The
negative-signed scan consumes every dot; see the counterexample.) -/
theorem numeral_double_dot_positive_only :
    (∀ (ds rest : List Char), (∀ c ∈ ds, c.isDigit) →
      numRun (ds ++ '.' :: '.' :: rest) = (ds, false, '.' :: '.' :: rest)) ∧
    tokenize "1..5".data = some (.ok
      [⟨.integer 1, ⟨0, 1⟩⟩, ⟨.dot, ⟨1, 2⟩⟩, ⟨.dot, ⟨2, 3⟩⟩,
       ⟨.integer 5, ⟨3, 4⟩⟩, ⟨.eof, ⟨4, 4⟩⟩]) ∧
    tokenize "-7".data = some (.ok [⟨.integer (-7), ⟨0, 2⟩⟩, ⟨.eof, ⟨2, 2⟩⟩]) := by
  refine ⟨?_, rfl, rfl⟩
  intro ds rest h
  induction ds with
  | nil => rfl
  | cons d ds ih =>
    have hd : d.isDigit := h d (List.mem_cons_self d ds)
    have hds : ∀ c ∈ ds, c.isDigit := fun c hc => h c (List.mem_cons_of_mem d hc)
    simp [numRun, hd, ih hds]

/-- C5, amended, witness: the run lemma applied at `1..5`. -/
theorem numeral_double_dot_positive_only_witness :
    numRun (['1'] ++ '.' :: '.' :: ['5']) = (['1'], false, '.' :: '.' :: ['5']) ∧
    tokenize "-7".data = some (.ok [⟨.integer (-7), ⟨0, 2⟩⟩, ⟨.eof, ⟨2, 2⟩⟩]) :=
  ⟨numeral_double_dot_positive_only.1 ['1'] ['5'] (by decide),
   numeral_double_dot_positive_only.2.2⟩

/-- `elems_any` is `List.any` of `value_references`. -/
theorem elems_any_eq_true {r : String} : ∀ {l : List Value},
    elems_any l r = true ↔ ∃ v ∈ l, value_references v r = true := by
  intro l
  induction l with
  | nil => simp [elems_any]
  | cons v rest ih => simp [elems_any, ih]

/-- `fields_any` is `List.any` of `value_references` over the values. -/
theorem fields_any_eq_true {r : String} : ∀ {l : List (String × Value)},
    fields_any l r = true ↔ ∃ kv ∈ l, value_references kv.2 r = true := by
  intro l
  induction l with
  | nil => simp [fields_any]
  | cons kv rest ih =>
    obtain ⟨k, v⟩ := kv
    simp [fields_any, ih]

/-- Soundness of `HasRef` for `value_references`. -/
theorem hasRef_value_references (r : String) (v : Value) (h : HasRef r v) :
    value_references v r = true := by
  induction h with
  | here fields hl => simp [value_references, hl]
  | inField fields k v hmem _ ih =>
    have hf : fields_any fields r = true := fields_any_eq_true.mpr ⟨(k, v), hmem, ih⟩
    simp [value_references, hf]
  | inElem elems v hmem _ ih =>
    simp [value_references, elems_any_eq_true.mpr ⟨v, hmem, ih⟩]

/-- Completeness of `HasRef` for `value_references`. -/
theorem value_references_hasRef (r : String) : (v : Value) →
    value_references v r = true → HasRef r v
  | .obj fields, h => by
    simp only [value_references] at h
    rcases (Bool.or_eq_true _ _).mp h with h1 | h2
    · cases hl : lookupField fields "_ref" with
      | none => rw [hl] at h1; simp at h1
      | some w =>
        cases w with
        | str s =>
          rw [hl] at h1
          simp only [beq_iff_eq] at h1
          exact HasRef.here fields (by rw [hl, h1])
        | null => rw [hl] at h1; simp at h1
        | bool b => rw [hl] at h1; simp at h1
        | num n => rw [hl] at h1; simp at h1
        | arr a => rw [hl] at h1; simp at h1
        | obj o => rw [hl] at h1; simp at h1
    · obtain ⟨kv, hmem, hv⟩ := fields_any_eq_true.mp h2
      obtain ⟨k, v2⟩ := kv
      exact HasRef.inField fields k v2 hmem (value_references_hasRef r v2 hv)
  | .arr elems, h => by
    simp only [value_references] at h
    obtain ⟨v2, hmem, hv⟩ := elems_any_eq_true.mp h
    exact HasRef.inElem elems v2 hmem (value_references_hasRef r v2 hv)
  | .null, h => by simp [value_references] at h
  | .bool b, h => by simp [value_references] at h
  | .num n, h => by simp [value_references] at h
  | .str s, h => by simp [value_references] at h
termination_by v => sizeOf v
decreasing_by
  · have h1 := List.sizeOf_lt_of_mem hmem
    simp only [Prod.mk.sizeOf_spec] at h1
    simp only [Value.obj.sizeOf_spec]
    omega
  · have h1 := List.sizeOf_lt_of_mem hmem
    simp only [Value.arr.sizeOf_spec]
    omega

/-- C8.  `references(doc, refId)` returns `Ok(true)` exactly when some
object nested anywhere inside `doc` (any depth of objects and arrays,
`doc` included) has a `"_ref"` field holding the string `refId`, and
`Ok(false)` otherwise; a non-string second argument gives `Ok(false)`,
not an error; an unknown builtin name gives a `TypeError`. -/
theorem references_semantics :
    (∀ (doc : Value) (r : String), HasRef r doc →
      call_builtin "references" [doc, .str r] = .ok (.bool true)) ∧
    (∀ (doc : Value) (r : String), ¬ HasRef r doc →
      call_builtin "references" [doc, .str r] = .ok (.bool false)) ∧
    (∀ (doc v : Value), (∀ s, v ≠ Value.str s) →
      call_builtin "references" [doc, v] = .ok (.bool false)) ∧
    (∀ (name : String) (args : List Value),
      name ≠ "count" → name ≠ "defined" → name ≠ "length" → name ≠ "references" →
      call_builtin name args = .error (.typeError ("unknown function: " ++ name))) := by
  refine ⟨?_, ?_, ?_, ?_⟩
  · intro doc r h
    show builtin_references [doc, .str r] = .ok (.bool true)
    simp [builtin_references, hasRef_value_references r doc h]
  · intro doc r h
    have hv : value_references doc r = false := by
      cases hvr : value_references doc r
      · rfl
      · exact absurd (value_references_hasRef r doc hvr) h
    show builtin_references [doc, .str r] = .ok (.bool false)
    simp [builtin_references, hv]
  · intro doc v hs
    cases v with
    | str s => exact absurd rfl (hs s)
    | null => rfl
    | bool b => rfl
    | num n => rfl
    | arr a => rfl
    | obj fields => rfl
  · intro name args h1 h2 h3 h4
    unfold call_builtin
    split <;> simp_all

/-- C8, witness: spec scenario 4 plus a non-string second argument and
an unknown name, each through the theorem. -/
theorem references_semantics_witness :
    call_builtin "references"
      [.obj [("author", .obj [("_ref", .str "user-1")]),
             ("tags", .arr [.obj [("_ref", .str "tag-2")]])], .str "user-1"] =
      .ok (.bool true) ∧
    call_builtin "references" [.null, .str "nope"] = .ok (.bool false) ∧
    call_builtin "references" [.null, .num 3] = .ok (.bool false) ∧
    call_builtin "nope" [] = .error (.typeError ("unknown function: " ++ "nope")) :=
  ⟨references_semantics.1 _ "user-1"
      (HasRef.inField _ "author" (.obj [("_ref", .str "user-1")]) (by simp)
        (HasRef.here _ rfl)),
   references_semantics.2.1 .null "nope" (fun h => by cases h),
   references_semantics.2.2.1 .null (.num 3) (fun s h => by cases h),
   references_semantics.2.2.2 "nope" [] (by decide) (by decide) (by decide) (by decide)⟩

/-- C6.  `"a && b || c"` parses right-recursively with `&&` and `||`
in one tier: the result is `And(a, Or(b, c))`. -/
theorem and_or_right_recursive_parse :
    parse "a && b || c".data =
      some (.ok (.and (.ident "a") (.or (.ident "b") (.ident "c")))) :=
  rfl

/-- C7.  A bare `*` parses to `Everything`; `*[_type == "post"]`
parses to the two-stage pipeline of `Everything` then the equality
filter. -/
theorem star_and_filter_parse :
    parse "*".data = some (.ok .everything) ∧
    parse "*[_type == \"post\"]".data =
      some (.ok (.pipeline
        [.everything, .filter (.eq (.ident "_type") (.stringLiteral "post"))])) :=
  ⟨rfl, rfl⟩

/-- C9.  `count`: an array maps to its length, `null` to `0`, any
other single argument — and the empty argument list — to the
`TypeError`; no other outcome occurs. -/
theorem count_semantics :
    (∀ xs : List Value, call_builtin "count" [.arr xs] = .ok (.num xs.length)) ∧
    call_builtin "count" [.null] = .ok (.num 0) ∧
    (∀ v : Value, (∀ xs, v ≠ Value.arr xs) → v ≠ Value.null →
      call_builtin "count" [v] = .error (.typeError "count() expects an array")) ∧
    call_builtin "count" [] = .error (.typeError "count() expects an array") := by
  refine ⟨fun xs => rfl, rfl, ?_, rfl⟩
  intro v ha hn
  cases v with
  | arr xs => exact absurd rfl (ha xs)
  | null => exact absurd rfl hn
  | bool b => rfl
  | num n => rfl
  | str s => rfl
  | obj fields => rfl

/-- C9, witness: scenario 5 of the spec, via the theorem. -/
theorem count_semantics_witness :
    call_builtin "count" [.arr [.num 1, .num 2, .num 3]] = .ok (.num 3) ∧
    call_builtin "count" [.null] = .ok (.num 0) ∧
    call_builtin "count" [.str "x"] = .error (.typeError "count() expects an array") :=
  ⟨count_semantics.1 [.num 1, .num 2, .num 3],
   count_semantics.2.1,
   count_semantics.2.2.1 (.str "x") (fun _ h => by cases h) (fun h => by cases h)⟩

/-- C10.  `parse` does not demand that the tokens be exhausted: on
`"a b"` — where the trailing identifier continues no construct — it
returns the leading expression `Ident("a")` and silently ignores the
rest of the stream. -/
theorem parse_ignores_trailing_tokens :
    parse "a b".data = some (.ok (.ident "a")) ∧
    tokenize "a b".data = some (.ok
      [⟨.ident "a", ⟨0, 1⟩⟩, ⟨.ident "b", ⟨2, 3⟩⟩, ⟨.eof, ⟨3, 3⟩⟩]) :=
  ⟨rfl, rfl⟩

end Groq
